import Mathlib

/-!
Formal model of the Fully-Agentic Crux Discovery (FACD) loop of the
ai-journal service, following the v3 implementation specification
(v3-implementation-specifications.md) and, for the v2 excavation engine,
README.md §3.2/§5.  The engine implementation itself (facd.py, models.py)
is not part of the source tree, so every definition below is modelled
from the normative specification text, as noted in its doc comment.
Probabilities are modelled as rationals.
-/

namespace FACD

/-- Modelled from the spec: lifecycle status of a hypothesis node,
`status: Literal["active","merged","retired"]` in `CruxNode`. -/
inductive NodeStatus where
  | active
  | merged
  | retired
deriving DecidableEq, Repr

/-- Modelled from the spec: `CruxNode` — a candidate root-cause statement
with identity, text, supporting and counter snippets and lifecycle status.
`low_streak` is the consecutive-turns-below-floor counter that the retire
rule ("low probability for K turns") needs the updater to track. -/
structure CruxNode where
  node_id : Nat
  text : String
  supports : List String
  counters : List String
  status : NodeStatus
  low_streak : Nat
deriving DecidableEq, Repr

/-- Modelled from the spec: `BeliefState` — ordered set of hypothesis
nodes, a mapping from node id to probability (the `probs` dict, modelled
as a total function), and a cached ranking of top ids. -/
structure BeliefState where
  nodes : List CruxNode
  probs : Nat → ℚ
  top_ids : List Nat

/-- Modelled from the spec: evidence kinds,
`Literal["UserAnswer","EntryQuote","PatternSignal","ContextDatum","MicroExperimentResult"]`. -/
inductive EvidenceKind where
  | userAnswer
  | entryQuote
  | patternSignal
  | contextDatum
  | microExperimentResult
deriving DecidableEq, Repr

/-- Modelled from the spec: `Evidence` — one immutable observation with a
kind, a free-form payload and the revision at which it was produced. -/
structure Evidence where
  kind : EvidenceKind
  payload : String
  at_revision : Nat
deriving DecidableEq, Repr

/-- Modelled from the spec: the exit reasons,
`Literal["threshold","epsilon","budget","guardrail"]`. -/
inductive ExitReason where
  | threshold
  | epsilon
  | budget
  | guardrail
deriving DecidableEq, Repr

/-- Modelled from the spec: configuration constants of §6,
`TAU_HIGH=0.80`, `DELTA_GAP=0.25`, `EPSILON_EVI=0.05`,
`MAX_USER_QUERIES=3`, `MAX_STEPS=8`, `MAX_HYPOTHESES=6`,
`MERGE_RADIUS=0.92`. -/
def TAU_HIGH : ℚ := 80 / 100

/-- Modelled from the spec: minimum gap between top and second. -/
def DELTA_GAP : ℚ := 25 / 100

/-- Modelled from the spec: diminishing-returns cutoff for the best action score. -/
def EPSILON_EVI : ℚ := 5 / 100

/-- Modelled from the spec: cap on user questions. -/
def MAX_USER_QUERIES : Nat := 3

/-- Modelled from the spec: cap on total steps. -/
def MAX_STEPS : Nat := 8

/-- Modelled from the spec: cap on the belief graph size. -/
def MAX_HYPOTHESES : Nat := 6

/-- Modelled from the spec: cosine radius above which two nodes merge. -/
def MERGE_RADIUS : ℚ := 92 / 100

/-- Modelled from the spec: probability floor below which a node counts as
dominated for the retire rule (spec: "stayed below a floor"). -/
def PROB_FLOOR : ℚ := 1 / 20

/-- Modelled from the spec: number of consecutive low-probability turns
after which a node is retired (spec: "for a fixed number of consecutive
turns"; the v2 discard band uses 2 turns). -/
def RETIRE_K : Nat := 2

/-- Active nodes of a node list. -/
def activeNodes (l : List CruxNode) : List CruxNode :=
  l.filter (fun n => n.status = .active)

/-- Sum of the probabilities assigned to the active nodes: the quantity the
probability invariant is about. -/
def activeSum (b : BeliefState) : ℚ :=
  ((activeNodes b.nodes).map (fun n => b.probs n.node_id)).sum

/-- Does some active node of the list carry this id. -/
def isActiveId (l : List CruxNode) (i : Nat) : Bool :=
  l.any (fun n => n.node_id = i && n.status = .active)

/-- Modelled from the spec: the bounded log-odds step, expressed in odds
space — the raw per-node evidence factor is clipped to a fixed positive
interval, which is the odds-space image of clipping the log-odds delta to
a maximum step size (numeric policy: clip to avoid saturation, so no node
reaches probability exactly 0 or 1). -/
def clipFactor (x : ℚ) : ℚ := max (1 / 10) (min 10 x)

/-- Modelled from the spec: renormalize the distribution over active
nodes (softmax denominator in odds space); retired and merged nodes are
excluded from the renormalization and keep their last value for audit. -/
def renormalizeActive (b : BeliefState) : BeliefState :=
  let w := ((activeNodes b.nodes).map (fun n => b.probs n.node_id)).sum
  { b with probs := fun i => if isActiveId b.nodes i then b.probs i / w else b.probs i }

/-- Modelled from the spec: apply the bounded log-odds delta for the new
observation to every active node; `lik obs i` is the raw evidence factor
for node `i` computed from the featureization (entail/contradict,
specificity, novelty). Retired and merged nodes are not updated. -/
def logOddsUpdate (lik : Evidence → Nat → ℚ) (obs : Evidence) (b : BeliefState) : BeliefState :=
  { b with
    probs := fun i =>
      if isActiveId b.nodes i then b.probs i * clipFactor (lik obs i) else b.probs i }

/-- Ordering used when two similar nodes merge: the pair with the higher
probability wins; equal probabilities are broken by list position, so the
earlier node is kept (spec: keep the higher-confidence node active). -/
def beatsB (p : Nat → ℚ) (m n : Nat × CruxNode) : Bool :=
  decide (p n.2.node_id < p m.2.node_id) ||
    (decide (p m.2.node_id = p n.2.node_id) && decide (m.1 < n.1))

/-- Is the node at position `i` absorbed by some other active node that is
within the merge radius and carries at least as much confidence. -/
def mergedBy (sim : CruxNode → CruxNode → ℚ) (p : Nat → ℚ)
    (e : List (Nat × CruxNode)) (i : Nat) (n : CruxNode) : Bool :=
  e.any (fun mj =>
    decide (mj.2.status = .active) && decide (mj.1 ≠ i) &&
      decide (MERGE_RADIUS ≤ sim n mj.2) && beatsB p mj (i, n))

/-- Snippets collected from the nodes a keeper absorbs during a merge
sweep (spec: union their supporting/counter snippets). -/
def absorbedSnips (take : CruxNode → List String) (sim : CruxNode → CruxNode → ℚ)
    (p : Nat → ℚ) (e : List (Nat × CruxNode)) (i : Nat) (n : CruxNode) : List String :=
  (e.filter (fun mj =>
      decide (mj.2.status = .active) && decide (mj.1 ≠ i) &&
        decide (MERGE_RADIUS ≤ sim n mj.2) && beatsB p (i, n) mj)).foldr
    (fun mj acc => take mj.2 ++ acc) []

/-- Modelled from the spec: the merge housekeeping pass — any two active
nodes whose similarity is at least `MERGE_RADIUS` are merged: the
higher-confidence node stays active and absorbs the supporting and
counter snippets of the other, which is marked `merged`. Statuses only
move from active to merged; nodes are never deleted. -/
def mergePass (sim : CruxNode → CruxNode → ℚ) (p : Nat → ℚ)
    (l : List CruxNode) : List CruxNode :=
  let e := l.enum
  e.map (fun x =>
    if x.2.status = .active then
      if mergedBy sim p e x.1 x.2 then
        { x.2 with status := .merged }
      else
        { x.2 with
          supports := x.2.supports ++ absorbedSnips (fun n => n.supports) sim p e x.1 x.2,
          counters := x.2.counters ++ absorbedSnips (fun n => n.counters) sim p e x.1 x.2 }
    else x.2)

/-- Modelled from the spec: the retire housekeeping pass — a node whose
probability has stayed below `PROB_FLOOR` for `RETIRE_K` consecutive
turns is marked retired and excluded from future scoring and
renormalization; the per-node streak counter is advanced here. -/
def retirePass (p : Nat → ℚ) (l : List CruxNode) : List CruxNode :=
  l.map (fun n =>
    if n.status = .active then
      let s := if p n.node_id < PROB_FLOOR then n.low_streak + 1 else 0
      if RETIRE_K ≤ s then { n with low_streak := s, status := .retired }
      else { n with low_streak := s }
    else n)

/-- Insert an id into a list kept sorted by decreasing probability. -/
def insertDesc (p : Nat → ℚ) (i : Nat) : List Nat → List Nat
  | [] => [i]
  | j :: t => if p j < p i then i :: j :: t else j :: insertDesc p i t

/-- Recompute the cached ranking of top ids over active nodes. -/
def rankTop (b : BeliefState) : List Nat :=
  ((activeNodes b.nodes).map (fun n => n.node_id)).foldr (insertDesc b.probs) []

/-- Modelled from the spec: `update_beliefs(state, obs)` — featureize the
observation against each node mapping to a bounded log-odds delta,
renormalize over active nodes, then merge near-duplicate nodes and retire
dominated nodes; the distribution is renormalized over the nodes still
active so the probability invariant holds after the whole pass (the
skipped nodes keep their last value for audit). -/
def update_beliefs (lik : Evidence → Nat → ℚ) (sim : CruxNode → CruxNode → ℚ)
    (b : BeliefState) (obs : Evidence) : BeliefState :=
  let b1 := renormalizeActive (logOddsUpdate lik obs b)
  let b2 := { b1 with nodes := mergePass sim b1.probs b1.nodes }
  let b3 := { b2 with nodes := retirePass b2.probs b2.nodes }
  let b4 := renormalizeActive b3
  { b4 with top_ids := rankTop b4 }

/-- Modelled from the spec: the discriminated union of agent actions
(§3 of the v3 spec); each variant carries its own action id used to
correlate a later user reply to the question that prompted it. -/
inductive Action where
  | askUser (action_id : Nat) (question : String) (quick_options : List String) (targets : List Nat)
  | hypothesize (action_id : Nat) (spawn_k : Nat)
  | clusterThemes (action_id : Nat)
  | counterfactualTest (action_id : Nat)
  | evidenceRequest (action_id : Nat)
  | silenceCheck (action_id : Nat)
  | confidenceUpdate (action_id : Nat)
  | stop (action_id : Nat) (exit_reason : ExitReason)
deriving DecidableEq, Repr

/-- Action id carried by any action variant. -/
def Action.actionId : Action → Nat
  | .askUser i _ _ _ => i
  | .hypothesize i _ => i
  | .clusterThemes i => i
  | .counterfactualTest i => i
  | .evidenceRequest i => i
  | .silenceCheck i => i
  | .confidenceUpdate i => i
  | .stop i _ => i

/-- Is this action the user-facing question action. -/
def Action.isAskUser : Action → Bool
  | .askUser _ _ _ _ => true
  | _ => false

/-- Modelled from the spec: `AgentState` — the canonical round-tripped
object: state id, monotonically increasing revision, optional integrity
tag, the original input text, current belief state, full evidence log,
the last emitted action, and budget counters.  `queries_used` is the
user-query budget counter and `seed` the PRNG seed recorded alongside
the turn, both required by the spec's budget rule and reproducibility
contract. -/
structure AgentState where
  state_id : Nat
  revision : Nat
  integrity : Option Nat
  journal_text : String
  belief_state : BeliefState
  evidence_log : List Evidence
  last_action : Option Action
  budget_used : Nat
  queries_used : Nat
  seed : Nat

/-- Modelled from the spec: `ConfirmedCrux` — top hypothesis with confidence. -/
structure ConfirmedCrux where
  node_id : Nat
  text : String
  confidence : ℚ
deriving DecidableEq, Repr

/-- Modelled from the spec: a secondary hypothesis above the confirmation bar. -/
structure SecondaryTheme where
  node_id : Nat
  text : String
  confidence : ℚ
deriving DecidableEq, Repr

/-- Modelled from the spec: `AgentResult` — the terminal payload, with
exactly one `exit_reason` field (stop reasons are mutually exclusive). -/
structure AgentResult where
  confirmed_crux : ConfirmedCrux
  secondary_themes : List SecondaryTheme
  reasoning_trail : String
  exit_reason : ExitReason
deriving DecidableEq, Repr

/-- Modelled from the spec: the external generative reasoning service and
embedding model, treated as an interface: evidence featureization
(`lik`), node similarity (`sim`) and contrastive question phrasing. -/
structure Oracle where
  lik : Evidence → Nat → ℚ
  sim : CruxNode → CruxNode → ℚ
  question : BeliefState → String

/-- Modelled from the spec: deterministic linear congruential PRNG step
used for outcome sampling (implementation hint: fix PRNG seeds per turn). -/
def lcg (s : Nat) : Nat := (1103515245 * s + 12345) % 2147483648

/-- Modelled from the spec: derive the sampler seed deterministically
from the turn's state id and revision. -/
def deriveSeed (sid rev : Nat) : Nat := lcg (1000003 * sid + rev)

/-- Modelled from the spec: Shannon entropy over active-node
probabilities; modelled by the executable quadratic impurity
`1 - sum of squared probabilities`, which is 0 on a point mass and
maximal on the uniform distribution.  The claims under verification
(determinism, replayability, exit priority, termination) do not depend
on the choice of entropy functional. -/
def entropyImpurity (b : BeliefState) : ℚ :=
  1 - ((activeNodes b.nodes).map (fun n => b.probs n.node_id ^ 2)).sum

/-- Modelled from the spec: `LAMBDA_COST` (calibrated within the spec's
0.5 - 1.5 range). -/
def LAMBDA_COST : ℚ := 1 / 2

/-- Modelled from the spec: fixed per-action-type cost with
`Cost(AskUser) > Cost(internal)`. -/
def costOf : Action → ℚ
  | .askUser _ _ _ _ => 1 / 8
  | .stop _ _ => 0
  | _ => 1 / 16

/-- Modelled from the spec: per-outcome sampled likelihood factor for a
node, derived deterministically from the seed, the action id, the
outcome index and the node id (a small discrete outcome set, factors in
1..3). -/
def sampledLik (seed aid j : Nat) : Nat → ℚ :=
  fun i => ((1 + (lcg (seed + 1000003 * aid + 7919 * j + i)) % 3 : Nat) : ℚ)

/-- A synthetic observation wrapper used when computing the expected
posterior entropy of a candidate action. -/
def probeObs : Evidence := ⟨.patternSignal, "sampled outcome", 0⟩

/-- Modelled from the spec: expected entropy reduction of an action —
expectation over a small discrete set of sampled outcomes of
`H(belief) - H(belief given o)`. -/
def expectedInfoGain (seed : Nat) (b : BeliefState) (a : Action) : ℚ :=
  let h0 := entropyImpurity b
  let post := fun j => entropyImpurity (renormalizeActive
    (logOddsUpdate (fun _ i => sampledLik seed a.actionId j i) probeObs b))
  (h0 - post 0) / 2 + (h0 - post 1) / 2

/-- Modelled from the spec: `score(a) = E[entropy reduction] - lambda * cost(a)`. -/
def actionScore (seed : Nat) (b : BeliefState) (a : Action) : ℚ :=
  expectedInfoGain seed b a - LAMBDA_COST * costOf a

/-- Modelled from the spec: `score_actions(actions, state)` — score every
candidate. -/
def score_actions (seed : Nat) (b : BeliefState) (acts : List Action) : List (Action × ℚ) :=
  acts.map (fun a => (a, actionScore seed b a))

/-- Modelled from the spec: pick the highest-scoring action; the
candidate list is enumerated with internal actions before `AskUser`, so
the tie policy favours internal actions. -/
def selectAction (seed : Nat) (b : BeliefState) (acts : List Action) : Option Action :=
  List.argmax (actionScore seed b) acts

/-- Best available action score, used by the diminishing-returns exit
rule; an empty candidate menu counts as below epsilon (the spec's
"enumerating zero non-Stop actions forces Stop"). -/
def bestActionEVI (seed : Nat) (b : BeliefState) (acts : List Action) : ℚ :=
  match List.argmax (actionScore seed b) acts with
  | none => EPSILON_EVI - 1
  | some a => actionScore seed b a

/-- Concrete two-hypothesis belief state used to exercise the updater. -/
def wNode1 : CruxNode := ⟨1, "stress at work", [], [], .active, 0⟩

/-- Second concrete hypothesis node. -/
def wNode2 : CruxNode := ⟨2, "sleep debt", [], [], .active, 0⟩

/-- Concrete belief state over the two nodes, near-uniform. -/
def wBelief : BeliefState :=
  ⟨[wNode1, wNode2], fun i => if i = 1 then 1/2 else if i = 2 then 1/2 else 0, [1, 2]⟩

/-- Concrete observation. -/
def wEvidence : Evidence := ⟨.userAnswer, "yes exactly that", 1⟩

/-- Concrete likelihood factors: the answer supports node 1. -/
def wLik : Evidence → Nat → ℚ := fun _ i => if i = 1 then 2 else 1

/-- Concrete similarity: the two nodes are not near-duplicates. -/
def wSim : CruxNode → CruxNode → ℚ := fun _ _ => 0

/-- Modelled from the spec: configured safety trigger phrases of the
distress gate (suicide and self-harm keywords). -/
def TRIGGERS : List String := ["suicide", "self-harm", "kill myself"]

/-- Does the second character list start the first one. -/
def isPrefixChars : List Char → List Char → Bool
  | [], _ => true
  | _ :: _, [] => false
  | c :: cs, d :: ds => c = d && isPrefixChars cs ds

/-- Does `sub` occur as a contiguous substring of `text`. -/
def hasSubstring (text sub : List Char) : Bool :=
  isPrefixChars sub text ||
    match text with
    | [] => false
    | _ :: t => hasSubstring t sub

/-- Does the text contain one of the configured trigger phrases. -/
def containsTrigger (text : String) : Bool :=
  TRIGGERS.any (fun t => hasSubstring text.data t.data)

/-- Modelled from the spec: the guardrail — a safety trigger on the input
text or on a user reply, evaluated before scoring each turn. -/
def guardrailTriggered (input : String) (reply : Option String) : Bool :=
  containsTrigger input ||
    (match reply with
     | some r => containsTrigger r
     | none => false)

/-- Insert a rational into a list kept in decreasing order. -/
def insertDescQ (x : ℚ) : List ℚ → List ℚ
  | [] => [x]
  | y :: t => if y < x then x :: y :: t else y :: insertDescQ x t

/-- Sort a list of rationals in decreasing order. -/
def sortDescQ (l : List ℚ) : List ℚ := l.foldr insertDescQ []

/-- Probability of the top active hypothesis (0 when none is active). -/
def topProb (b : BeliefState) : ℚ :=
  (sortDescQ ((activeNodes b.nodes).map (fun n => b.probs n.node_id))).headD 0

/-- Probability of the second active hypothesis (0 when fewer than two). -/
def secondProb (b : BeliefState) : ℚ :=
  ((sortDescQ ((activeNodes b.nodes).map (fun n => b.probs n.node_id))).drop 1).headD 0

/-- Modelled from the spec: `should_stop(state)` — the exit predicate,
checked in fixed priority order: threshold (top probability at least
`TAU_HIGH` and top-minus-second gap at least `DELTA_GAP`), then
diminishing returns (best available action score below `EPSILON_EVI`),
then budget (user-query count or total step count at its cap). -/
def should_stop (seed : Nat) (st : AgentState) (cands : List Action) : Option ExitReason :=
  if TAU_HIGH ≤ topProb st.belief_state ∧
      DELTA_GAP ≤ topProb st.belief_state - secondProb st.belief_state then
    some .threshold
  else if bestActionEVI seed st.belief_state cands < EPSILON_EVI then
    some .epsilon
  else if MAX_USER_QUERIES ≤ st.queries_used ∨ MAX_STEPS ≤ st.budget_used then
    some .budget
  else
    none

/-- Do two distinct active nodes sit within the merge radius. -/
def hasNearDup (sim : CruxNode → CruxNode → ℚ) (b : BeliefState) : Bool :=
  (activeNodes b.nodes).enum.any (fun x =>
    (activeNodes b.nodes).enum.any (fun y =>
      decide (x.1 ≠ y.1) && decide (MERGE_RADIUS ≤ sim x.2 y.2)))

/-- Modelled from the spec: `enumerate_actions(state)` — the rule table:
include `Hypothesize` when entropy is high and the node count is below
the cap, `ClusterThemes` when two nodes are near-duplicates,
`CounterfactualTest` when at least two nodes remain viable, and always
one `AskUser` candidate unless the user-query budget is exhausted;
internal actions are listed before `AskUser`.  `Stop` is not in the menu:
it is scored by the exit controller's own predicate. -/
def enumerate_actions (or : Oracle) (st : AgentState) : List Action :=
  let b := st.belief_state
  let hyp :=
    if decide ((1 : ℚ) / 2 < entropyImpurity b) &&
        decide ((activeNodes b.nodes).length < MAX_HYPOTHESES) then
      [Action.hypothesize (100 * st.revision + 1) 1]
    else []
  let clus := if hasNearDup or.sim b then [Action.clusterThemes (100 * st.revision + 2)] else []
  let cft :=
    if 2 ≤ (activeNodes b.nodes).length then
      [Action.counterfactualTest (100 * st.revision + 3)]
    else []
  let ask :=
    if st.queries_used < MAX_USER_QUERIES then
      [Action.askUser (100 * st.revision + 4) (or.question b) [] (b.top_ids.take 2)]
    else []
  hyp ++ clus ++ cft ++ ask

/-- Modelled from the spec: confirmation bar above which remaining
high-mass nodes are reported as secondary themes. -/
def CONFIRM_BAR : ℚ := 1 / 4

/-- Modelled from the spec: `finalize(state)` — select the top node as
the confirmed crux, include remaining high-mass nodes as secondary
themes, and emit a compact reasoning trail from the evidence log.  The
result reports exactly one exit reason. -/
def finalize (b : BeliefState) (log : List Evidence) (r : ExitReason) : AgentResult :=
  let top := List.argmax (fun n => b.probs n.node_id) (activeNodes b.nodes)
  let cc : ConfirmedCrux :=
    match top with
    | some n => ⟨n.node_id, n.text, b.probs n.node_id⟩
    | none => ⟨0, "unclear", 0⟩
  let sec : List SecondaryTheme :=
    match top with
    | some n =>
      ((activeNodes b.nodes).filter (fun m =>
          decide (m.node_id ≠ n.node_id) && decide (CONFIRM_BAR ≤ b.probs m.node_id))).map
        (fun m => ⟨m.node_id, m.text, b.probs m.node_id⟩)
    | none => []
  ⟨cc, sec, (log.map (fun e => e.payload)).foldr (fun s acc => s ++ "; " ++ acc) "", r⟩

/-- Modelled from the spec: fold an inbound user reply into the state —
append the `UserAnswer` evidence and run the Belief Updater on it; the
reply is consumed only when the last emitted action was `AskUser`. -/
def applyReply (or : Oracle) (reply : Option String) (st : AgentState) : AgentState :=
  match reply, st.last_action with
  | some r, some (Action.askUser _ _ _ _) =>
    { st with
      belief_state := update_beliefs or.lik or.sim st.belief_state ⟨.userAnswer, r, st.revision⟩,
      evidence_log := st.evidence_log ++ [⟨.userAnswer, r, st.revision⟩] }
  | _, _ => st

/-- Modelled from the spec: the synchronous evidence produced by an
internal action (`SilenceCheck` records "no new signal", and so on). -/
def evidenceFor (a : Action) (st : AgentState) : Evidence :=
  match a with
  | .hypothesize _ _ => ⟨.patternSignal, "spawned hypothesis", st.revision⟩
  | .clusterThemes _ => ⟨.patternSignal, "clustered themes", st.revision⟩
  | .counterfactualTest _ => ⟨.microExperimentResult, "counterfactual probe", st.revision⟩
  | .evidenceRequest _ => ⟨.contextDatum, "requested evidence", st.revision⟩
  | .silenceCheck _ => ⟨.patternSignal, "no new signal", st.revision⟩
  | _ => ⟨.patternSignal, "", st.revision⟩

/-- Outcome of one orchestrated turn: either the loop continues with a
new state (pausing when the executed action was `AskUser`), or it
finishes with a terminal result. -/
inductive StepResult where
  | next (st : AgentState) (a : Action)
  | finished (st : AgentState) (r : AgentResult)

/-- Modelled from the spec: one turn of the orchestrator — guardrail
check before scoring, fold the reply, enumerate, exit-check, score,
execute the top action (pausing on `AskUser`, otherwise producing
evidence and updating beliefs within the same turn), stamp the emitted
state with the next revision and the recorded sampler seed. -/
def stepTurn (or : Oracle) (reply : Option String) (st : AgentState) : StepResult :=
  if guardrailTriggered st.journal_text reply then
    .finished st (finalize st.belief_state st.evidence_log .guardrail)
  else
    match should_stop (deriveSeed st.state_id st.revision) (applyReply or reply st)
        (enumerate_actions or (applyReply or reply st)) with
    | some reason =>
      .finished (applyReply or reply st)
        (finalize (applyReply or reply st).belief_state
          (applyReply or reply st).evidence_log reason)
    | none =>
      match selectAction (deriveSeed st.state_id st.revision)
          (applyReply or reply st).belief_state
          (enumerate_actions or (applyReply or reply st)) with
      | none =>
        .finished (applyReply or reply st)
          (finalize (applyReply or reply st).belief_state
            (applyReply or reply st).evidence_log .epsilon)
      | some (Action.askUser i q o t) =>
        .next { applyReply or reply st with
            last_action := some (Action.askUser i q o t),
            budget_used := (applyReply or reply st).budget_used + 1,
            queries_used := (applyReply or reply st).queries_used + 1,
            revision := (applyReply or reply st).revision + 1,
            seed := deriveSeed st.state_id st.revision } (Action.askUser i q o t)
      | some a =>
        .next { applyReply or reply st with
            belief_state := update_beliefs or.lik or.sim
              (applyReply or reply st).belief_state
              (evidenceFor a (applyReply or reply st)),
            evidence_log := (applyReply or reply st).evidence_log ++
              [evidenceFor a (applyReply or reply st)],
            last_action := some a,
            budget_used := (applyReply or reply st).budget_used + 1,
            revision := (applyReply or reply st).revision + 1,
            seed := deriveSeed st.state_id st.revision } a

/-- Run the loop on a stream of user replies with explicit fuel; `none`
means the fuel ran out before a terminal state was reached. -/
def runLoopFuel (or : Oracle) (stream : Nat → Option String) :
    Nat → AgentState → Option (AgentState × AgentResult)
  | 0, _ => none
  | fuel + 1, st =>
    match stepTurn or (stream st.budget_used) st with
    | .finished stf r => some (stf, r)
    | .next st' _ => runLoopFuel or stream fuel st'

/-- Concrete high-confidence belief state: top 0.9, second 0.1. -/
def wBeliefThr : BeliefState :=
  ⟨[⟨1, "stress at work", [], [], .active, 0⟩, ⟨2, "sleep debt", [], [], .active, 0⟩],
    fun i => if i = 1 then 9/10 else if i = 2 then 1/10 else 0, [1, 2]⟩

/-- Concrete agent state carrying the high-confidence belief. -/
def wstThr : AgentState := ⟨7, 3, none, "a plain journal entry", wBeliefThr, [], none, 2, 1, 0⟩

/-- Concrete oracle used by the witnesses. -/
def wOracle : Oracle := ⟨wLik, wSim, fun _ => "which of these fits better?"⟩

/-- Concrete user reply containing a configured trigger phrase. -/
def wReplyTrigger : Option String := some "lately I keep thinking about suicide"

/-- Concrete agent state carrying a high-confidence belief and a pending
question; used to show the guardrail overrides the threshold exit. -/
def wstGuard : AgentState :=
  ⟨9, 1, none, "a plain journal entry", wBeliefThr, [],
    some (Action.askUser 11 "what feels heaviest?" [] []), 0, 0, 0⟩

/-- Concrete fresh agent state used by the termination witness. -/
def wstLoop : AgentState :=
  ⟨12, 0, none, "a plain journal entry", wBelief, [], none, 0, 0, 0⟩

/-- Concrete two-node near-uniform belief used by the scoring witness. -/
def wBeliefRun : BeliefState :=
  ⟨[⟨1, "stress at work", [], [], .active, 0⟩, ⟨2, "sleep debt", [], [], .active, 0⟩],
    fun i => if i = 1 then 1/2 else if i = 2 then 1/2 else 0, [1, 2]⟩

/-- Concrete mid-loop agent state whose turn selects an internal action. -/
def wstRun : AgentState := ⟨12, 0, none, "a fine day", wBeliefRun, [], none, 0, 0, 0⟩

/-- The internal action the concrete turn selects. -/
def wActRun : Action := Action.counterfactualTest 3

/-- The question candidate enumerated alongside it. -/
def wAskRun : Action := Action.askUser 4 "which of these fits better?" [] [1, 2]

/-- The evidence the internal action produces. -/
def wEvRun : Evidence := ⟨.microExperimentResult, "counterfactual probe", 0⟩

/-- The state the concrete turn emits. -/
def wstNext : AgentState :=
  ⟨12, 1, none, "a fine day", update_beliefs wLik wSim wBeliefRun wEvRun, [wEvRun],
    some wActRun, 1, 0, deriveSeed 12 0⟩

/-- Modelled from the spec: the error codes of §4.1 Validation & Errors —
409 for stale revision or integrity mismatch, 410 for an answer that
does not target the last emitted action, 429 for budget and rate guards,
400 for malformed requests. -/
inductive ServerErr where
  | conflict409
  | gone410
  | tooMany429
  | badRequest400
deriving DecidableEq, Repr

/-- Modelled from the spec: the `continue` response body — completion
flag, the emitted state's identifiers, and either the next action or the
terminal result. -/
structure TurnResponse where
  complete : Bool
  state_sid : Nat
  state_rev : Nat
  action : Option Action
  result : Option AgentResult
deriving DecidableEq, Repr

/-- One idempotency-cache record: key, state id, revision, arrival time
and the stored response. -/
structure IdemEntry where
  key : Nat
  sid : Nat
  rev : Nat
  time : Nat
  resp : TurnResponse
deriving DecidableEq, Repr

/-- Modelled from the spec: the per-state-id bookkeeping the codec's
optimistic concurrency implies — the next expected revision, the action
id of the last emitted `AskUser`, and the idempotency cache. -/
structure ServerCtx where
  curRev : Nat
  lastAskId : Option Nat
  cache : List IdemEntry
deriving DecidableEq, Repr

/-- Modelled from the spec: a `continue` request — optional idempotency
key, the round-tripped state, and the user's answer with its target
action id. -/
structure ContinueReq where
  key : Option Nat
  state : AgentState
  answer_to : Option Nat
  value : Option String

/-- Modelled from the spec: idempotency replay window (2 minutes). -/
def IDEM_WINDOW : Nat := 120

/-- Modelled from the spec: the integrity tag, an authenticated hash of
the state sans the tag itself (HMAC modelled by a deterministic mix of
the tagged fields). -/
def integrityTag (st : AgentState) : Nat :=
  (st.state_id + 1000003 * st.revision + 7919 * st.budget_used +
    104729 * st.queries_used) % 2147483648

/-- Is the claimed integrity tag absent or consistent. -/
def integrityOk (st : AgentState) : Bool :=
  match st.integrity with
  | some tag => decide (tag = integrityTag st)
  | none => true

/-- Deterministic byte encoding of a response body. -/
def encodeResponse (r : TurnResponse) : String :=
  (if r.complete then "c1" else "c0") ++ ";" ++ toString r.state_sid ++ ";" ++
    toString r.state_rev ++ ";" ++
    (match r.action with
     | some a => toString a.actionId
     | none => "-") ++ ";" ++
    (match r.result with
     | some res => toString res.confirmed_crux.node_id
     | none => "-")

/-- Look up a cached response for this key and (state id, revision)
within the validity window. -/
def lookupCache (c : List IdemEntry) (k sid rev now : Nat) : Option TurnResponse :=
  match c.find? (fun e =>
      decide (e.key = k) && decide (e.sid = sid) && decide (e.rev = rev) &&
        decide (now - e.time ≤ IDEM_WINDOW)) with
  | some e => some e.resp
  | none => none

/-- Record a freshly computed response under the request's key. -/
def pushCache (c : List IdemEntry) (key : Option Nat) (sid rev now : Nat)
    (resp : TurnResponse) : List IdemEntry :=
  match key with
  | some k => ⟨k, sid, rev, now, resp⟩ :: c
  | none => c

/-- Modelled from the spec: fresh (non-replayed) `continue` handling —
verify the integrity tag (mismatch is fatal, 409), verify the revision
is current (stale is 409), verify the answer targets the last emitted
`AskUser` action id (mismatch is the distinct 410), then execute the
pipeline, emit the response with the next revision, and store it in the
idempotency cache. -/
def handleFresh (or : Oracle) (now : Nat) (ctx : ServerCtx) (req : ContinueReq) :
    ServerCtx × Bool × Except ServerErr TurnResponse :=
  if integrityOk req.state = false then (ctx, true, .error .conflict409)
  else if req.state.revision ≠ ctx.curRev then (ctx, true, .error .conflict409)
  else if (match ctx.lastAskId with
           | some aid => decide (req.answer_to ≠ some aid)
           | none => false) then (ctx, true, .error .gone410)
  else
    match stepTurn or req.value req.state with
    | .next st' a =>
      (⟨ctx.curRev + 1,
        if a.isAskUser then some a.actionId else none,
        pushCache ctx.cache req.key req.state.state_id req.state.revision now
          ⟨false, st'.state_id, st'.revision, some a, none⟩⟩,
       true, .ok ⟨false, st'.state_id, st'.revision, some a, none⟩)
    | .finished stf r =>
      (⟨ctx.curRev + 1, none,
        pushCache ctx.cache req.key req.state.state_id req.state.revision now
          ⟨true, stf.state_id, stf.revision + 1, none, some r⟩⟩,
       true, .ok ⟨true, stf.state_id, stf.revision + 1, none, some r⟩)

/-- Modelled from the spec: the `continue` entry point — a request whose
idempotency key and (state id, revision) hit the cache within the window
returns the stored prior response without executing the pipeline (the
middle component is the executed flag); anything else is handled fresh. -/
def handleContinue (or : Oracle) (now : Nat) (ctx : ServerCtx) (req : ContinueReq) :
    ServerCtx × Bool × Except ServerErr TurnResponse :=
  match req.key with
  | some k =>
    match lookupCache ctx.cache k req.state.state_id req.state.revision now with
    | some r => (ctx, false, .ok r)
    | none => handleFresh or now ctx req
  | none => handleFresh or now ctx req

/-- Modelled from the spec: a candidate crux theme returned by the
reasoning service during seeding — text plus an optional diagnostic
prior. -/
structure Candidate where
  text : String
  prior : Option ℚ
deriving DecidableEq, Repr

/-- Modelled from the spec: reasoning-service failure modes (timeout,
malformed structured output). -/
inductive SvcErr where
  | timeout
  | malformed
deriving DecidableEq, Repr

/-- Is a returned candidate usable: its text satisfies the node text
bounds (non-empty, at most 400 characters). -/
def usable (c : Candidate) : Bool :=
  decide (1 ≤ c.text.length) && decide (c.text.length ≤ 400)

/-- Modelled from the spec: the fabricated generic "unclear" hypothesis
node. -/
def unclearNode : CruxNode := ⟨0, "unclear", [], [], .active, 0⟩

/-- Modelled from the spec: the fallback belief state holding the single
generic "unclear" node with all probability mass. -/
def fallbackBelief : BeliefState :=
  ⟨[unclearNode], fun i => if i = 0 then 1 else 0, [0]⟩

/-- Modelled from the spec: `seed_beliefs` — turn the reasoning-service
outcome into an initial belief state with at most 4 near-uniform nodes;
if the service failed or returned fewer than 1 usable candidate,
fabricate the single generic "unclear" node rather than erroring, so the
loop can still run (the function is total and never returns an error). -/
def seed_beliefs (res : Except SvcErr (List Candidate)) : BeliefState :=
  match res with
  | .error _ => fallbackBelief
  | .ok cands =>
    match (cands.filter usable).take 4 with
    | [] => fallbackBelief
    | us =>
      let nodes := us.enum.map (fun x => CruxNode.mk (x.1 + 1) x.2.text [] [] .active 0)
      ⟨nodes, fun i => if isActiveId nodes i then (1 : ℚ) / nodes.length else 0,
        nodes.map (fun n => n.node_id)⟩

/-- Modelled from the spec: v2 excavation hypothesis status,
`Literal["active","confirmed","discarded"]`. -/
inductive HypStatus where
  | active
  | confirmed
  | discarded
deriving DecidableEq, Repr

/-- Modelled from the spec: v2 `CruxHypothesis` — text, server-computed
confidence in 0..1, confirmation count and lifecycle status;
`low_streak` tracks consecutive turns below the discard band. -/
structure CruxHypothesis where
  hypothesis_id : Nat
  text : String
  confidence : ℚ
  confirmations : Nat
  status : HypStatus
  low_streak : Nat
deriving DecidableEq, Repr

/-- Clip a rational into the unit interval. -/
def clip01 (x : ℚ) : ℚ := max 0 (min 1 x)

/-- Dot product of two feature vectors. -/
def dotQ (w f : List ℚ) : ℚ := ((w.zip f).map (fun p => p.1 * p.2)).sum

/-- Modelled from the spec: the v2 discard band below which a hypothesis
is discarded after 2 consecutive turns. -/
def DISCARD_BAND : ℚ := 1 / 5

/-- Modelled from the spec: an executable stand-in for the logistic
sigmoid, used to instantiate the parameterized v2 update at concrete
inputs; it is monotone, maps into the unit interval and agrees with the
logistic function at 0, where its value is 1/2. -/
def sigmoidModel (x : ℚ) : ℚ := 1 / 2 + x / (2 * (1 + |x|))

/-- Modelled from the spec: one hypothesis of the v2 update —
`confidence_i <- clip(sigmoid(w . f_i + bias))`, computed from this
hypothesis's own features only; increment `confirmations` when the reply
strongly supports it; a confidence below the discard band for 2
consecutive turns discards the hypothesis. -/
def updateOneV2 (sigmoid : ℚ → ℚ) (w : List ℚ) (bias : ℚ)
    (feats : CruxHypothesis → List ℚ) (supportsReply : CruxHypothesis → Bool)
    (h : CruxHypothesis) : CruxHypothesis :=
  let conf := clip01 (sigmoid (dotQ w (feats h) + bias))
  let streak := if conf < DISCARD_BAND then h.low_streak + 1 else 0
  { h with
    confidence := conf,
    confirmations := if supportsReply h then h.confirmations + 1 else h.confirmations,
    low_streak := streak,
    status := if h.status = .active ∧ 2 ≤ streak then .discarded else h.status }

/-- Modelled from the spec: v2 `update_beliefs(state, user_reply)` — each
hypothesis is updated independently by `updateOneV2`; there is no
renormalization pass over the active hypotheses. -/
def update_beliefs_v2 (sigmoid : ℚ → ℚ) (w : List ℚ) (bias : ℚ)
    (feats : CruxHypothesis → List ℚ) (supportsReply : CruxHypothesis → Bool)
    (hyps : List CruxHypothesis) : List CruxHypothesis :=
  hyps.map (updateOneV2 sigmoid w bias feats supportsReply)

/-- Sum of the confidences of the active v2 hypotheses. -/
def activeConfSum (l : List CruxHypothesis) : ℚ :=
  ((l.filter (fun h => h.status = .active)).map (fun h => h.confidence)).sum

/-- Three concrete active v2 hypotheses with zero features. -/
def wV2hyps : List CruxHypothesis :=
  [⟨1, "fear of failure", 2/5, 0, .active, 0⟩,
   ⟨2, "role misalignment", 2/5, 0, .active, 0⟩,
   ⟨3, "burnout", 2/5, 0, .active, 0⟩]

/-- Concrete codec context expecting revision 5. -/
def wctxStale : ServerCtx := ⟨5, none, []⟩

/-- Concrete continue request replaying an old (revision 0) state. -/
def wreqStale : ContinueReq := ⟨none, wstRun, none, none⟩

/-- Concrete fresh codec context at revision 0. -/
def wctx7 : ServerCtx := ⟨0, none, []⟩

/-- Concrete keyed continue request round-tripping the revision-0 state. -/
def wreq7 : ContinueReq := ⟨some 77, wstRun, none, none⟩

/-- The response body the concrete fresh call produces. -/
def wresp7 : TurnResponse := ⟨false, 12, 1, some wActRun, none⟩

/-- The codec context after the concrete fresh call. -/
def wctx7after : ServerCtx := ⟨1, none, [⟨77, 12, 0, 50, wresp7⟩]⟩

/-- Concrete codec context with a pending question with action id 11. -/
def wctx8 : ServerCtx := ⟨0, some 11, []⟩

/-- Concrete reply targeting the wrong action id 99. -/
def wreq8 : ContinueReq := ⟨none, wstRun, some 99, some "the second one"⟩

lemma sum_map_div {α : Type} (l : List α) (f : α → ℚ) (c : ℚ) :
    (l.map (fun x => f x / c)).sum = (l.map f).sum / c := by
  induction l with
  | nil => simp
  | cons a t ih => simp [ih, add_div]

lemma mem_activeNodes {n : CruxNode} {l : List CruxNode} :
    n ∈ activeNodes l ↔ n ∈ l ∧ n.status = .active := by
  simp [activeNodes]

lemma isActiveId_of_mem {l : List CruxNode} {n : CruxNode}
    (hn : n ∈ l) (ha : n.status = .active) : isActiveId l n.node_id = true := by
  simp only [isActiveId, List.any_eq_true]
  exact ⟨n, hn, by simp [ha]⟩

lemma clipFactor_pos (x : ℚ) : 0 < clipFactor x :=
  lt_of_lt_of_le (by norm_num) (le_max_left _ _)

lemma activeSum_pos {b : BeliefState}
    (hpos : ∀ n ∈ b.nodes, n.status = .active → 0 < b.probs n.node_id)
    (hex : ∃ n ∈ b.nodes, n.status = .active) : 0 < activeSum b := by
  obtain ⟨n0, hn0, ha0⟩ := hex
  apply List.sum_pos
  · intro x hx
    obtain ⟨m, hm, rfl⟩ := List.mem_map.mp hx
    exact hpos m (mem_activeNodes.mp hm).1 (mem_activeNodes.mp hm).2
  · intro hnil
    have hmem : n0 ∈ activeNodes b.nodes := mem_activeNodes.mpr ⟨hn0, ha0⟩
    rw [List.map_eq_nil_iff] at hnil
    simp [hnil] at hmem

lemma renormalizeActive_probs_active {b : BeliefState} {i : Nat}
    (h : isActiveId b.nodes i = true) :
    (renormalizeActive b).probs i = b.probs i / activeSum b := by
  simp [renormalizeActive, activeSum, h]

lemma renormalizeActive_activeSum {b : BeliefState}
    (hpos : ∀ n ∈ b.nodes, n.status = .active → 0 < b.probs n.node_id)
    (hex : ∃ n ∈ b.nodes, n.status = .active) :
    activeSum (renormalizeActive b) = 1 := by
  have hW := activeSum_pos hpos hex
  have hcong : ∀ n ∈ activeNodes b.nodes,
      (renormalizeActive b).probs n.node_id = b.probs n.node_id / activeSum b := by
    intro n hn
    exact renormalizeActive_probs_active
      (isActiveId_of_mem (mem_activeNodes.mp hn).1 (mem_activeNodes.mp hn).2)
  show ((activeNodes b.nodes).map (fun n => (renormalizeActive b).probs n.node_id)).sum = 1
  rw [List.map_congr_left hcong, sum_map_div]
  exact div_self (ne_of_gt hW)

lemma renormalizeActive_pos {b : BeliefState}
    (hpos : ∀ n ∈ b.nodes, n.status = .active → 0 < b.probs n.node_id)
    (hex : ∃ n ∈ b.nodes, n.status = .active) :
    ∀ n ∈ b.nodes, n.status = .active → 0 < (renormalizeActive b).probs n.node_id := by
  intro n hn ha
  rw [renormalizeActive_probs_active (isActiveId_of_mem hn ha)]
  exact div_pos (hpos n hn ha) (activeSum_pos hpos hex)

lemma sum_lt_length_mul {l : List ℚ} {c : ℚ} (hne : l ≠ [])
    (h : ∀ x ∈ l, x < c) : l.sum < l.length * c := by
  induction l with
  | nil => cases hne rfl
  | cons a t ih =>
    rcases eq_or_ne t [] with rfl | ht
    · simpa using h a (by simp)
    · have h1 : a < c := h a (by simp)
      have h2 : t.sum < t.length * c := ih ht (fun x hx => h x (by simp [hx]))
      simp only [List.sum_cons, List.length_cons]
      push_cast
      nlinarith

lemma exists_sixth_le {l : List ℚ} (hne : l ≠ []) (hlen : l.length ≤ 6)
    (hsum : l.sum = 1) : ∃ x ∈ l, (1 : ℚ) / 6 ≤ x := by
  by_contra hcon
  push_neg at hcon
  have h1 : l.sum < l.length * ((1 : ℚ) / 6) := sum_lt_length_mul hne hcon
  have h2 : (l.length : ℚ) * ((1 : ℚ) / 6) ≤ 1 := by
    have : (l.length : ℚ) ≤ 6 := by exact_mod_cast hlen
    linarith
  rw [hsum] at h1
  linarith

lemma mem_of_mem_enum {α : Type} {l : List α} {i : Nat} {a : α}
    (h : (i, a) ∈ l.enum) : a ∈ l := by
  obtain ⟨hi, ha⟩ := List.mem_enum h
  rw [ha]
  exact l.getElem_mem hi

lemma enum_mem_of_mem {α : Type} {l : List α} {a : α} (h : a ∈ l) :
    ∃ i, (i, a) ∈ l.enum := by
  obtain ⟨i, hi, hia⟩ := List.getElem_of_mem h
  refine ⟨i, ?_⟩
  have hlen : i < l.enum.length := by simpa [List.enum_length] using hi
  have hget := List.getElem_enum l i hlen
  rw [hia] at hget
  rw [← hget]
  exact List.getElem_mem hlen

lemma mergePass_length (sim : CruxNode → CruxNode → ℚ) (p : Nat → ℚ) (l : List CruxNode) :
    (mergePass sim p l).length = l.length := by
  simp [mergePass, List.enum_length]

lemma mergePass_active_src {sim : CruxNode → CruxNode → ℚ} {p : Nat → ℚ}
    {l : List CruxNode} {n' : CruxNode}
    (h : n' ∈ mergePass sim p l) (ha : n'.status = .active) :
    ∃ n ∈ l, n.status = .active ∧ n.node_id = n'.node_id := by
  simp only [mergePass] at h
  obtain ⟨⟨i, n⟩, hx, hfx⟩ := List.mem_map.mp h
  simp only at hfx
  have hn : n ∈ l := mem_of_mem_enum hx
  by_cases hact : n.status = .active
  · rw [if_pos hact] at hfx
    by_cases hm : mergedBy sim p l.enum i n = true
    · rw [if_pos hm] at hfx
      rw [← hfx] at ha
      simp at ha
    · rw [if_neg hm] at hfx
      refine ⟨n, hn, hact, ?_⟩
      rw [← hfx]
  · rw [if_neg hact] at hfx
    rw [← hfx] at ha
    exact (hact ha).elim

lemma mergePass_survivor {sim : CruxNode → CruxNode → ℚ} {p : Nat → ℚ}
    {l : List CruxNode} {c : ℚ}
    (hex : ∃ n ∈ l, n.status = .active ∧ c ≤ p n.node_id) :
    ∃ n' ∈ mergePass sim p l, n'.status = .active ∧ c ≤ p n'.node_id := by
  classical
  obtain ⟨n0, hn0, han0, hc0⟩ := hex
  set A := l.enum.filter (fun x => decide (x.2.status = .active)) with hA
  obtain ⟨i0, hi0⟩ := enum_mem_of_mem hn0
  have hn0A : (i0, n0) ∈ A := by
    rw [hA]
    exact List.mem_filter.mpr ⟨hi0, by simp [han0]⟩
  have hAne : A ≠ [] := List.ne_nil_of_mem hn0A
  obtain ⟨a0, ha0m⟩ : ∃ a0, a0 ∈ List.argmax (fun x : Nat × CruxNode => p x.2.node_id) A := by
    cases hq : List.argmax (fun x : Nat × CruxNode => p x.2.node_id) A with
    | none => exact absurd (List.argmax_eq_none.mp hq) hAne
    | some a => exact ⟨a, by simp [hq]⟩
  set L2 := A.filter (fun x => decide (p x.2.node_id = p a0.2.node_id)) with hL2
  have ha0L2 : a0 ∈ L2 := by
    rw [hL2]
    exact List.mem_filter.mpr ⟨List.argmax_mem ha0m, by simp⟩
  have hL2ne : L2 ≠ [] := List.ne_nil_of_mem ha0L2
  obtain ⟨a1, ha1m⟩ : ∃ a1, a1 ∈ List.argmax (fun x : Nat × CruxNode => -(x.1 : ℤ)) L2 := by
    cases hq : List.argmax (fun x : Nat × CruxNode => -(x.1 : ℤ)) L2 with
    | none => exact absurd (List.argmax_eq_none.mp hq) hL2ne
    | some a => exact ⟨a, by simp [hq]⟩
  have ha1L2 : a1 ∈ L2 := List.argmax_mem ha1m
  have ha1A : a1 ∈ A := (List.mem_filter.mp ha1L2).1
  have hpa1 : p a1.2.node_id = p a0.2.node_id := by
    have := (List.mem_filter.mp ha1L2).2
    simpa using this
  have ha1act : a1.2.status = .active := by
    have := (List.mem_filter.mp ha1A).2
    simpa using this
  have ha1enum : a1 ∈ l.enum := (List.mem_filter.mp ha1A).1
  have hmax : ∀ x ∈ A, p x.2.node_id ≤ p a0.2.node_id :=
    fun x hx =>
      @List.le_of_mem_argmax _ _ _ (fun x : Nat × CruxNode => p x.2.node_id) A x a0 hx ha0m
  have hminidx : ∀ x ∈ L2, a1.1 ≤ x.1 := by
    intro x hx
    have := @List.le_of_mem_argmax _ _ _ (fun x : Nat × CruxNode => -(x.1 : ℤ)) L2 x a1 hx ha1m
    simp only at this
    omega
  have hng : mergedBy sim p l.enum a1.1 a1.2 = false := by
    rw [mergedBy, List.any_eq_false]
    intro mj hmj
    simp only [Bool.and_eq_true, decide_eq_true_eq, beatsB, Bool.or_eq_true, not_and, and_imp]
    intro hmact hmne hmsim
    have hmjA : mj ∈ A := by
      rw [hA]
      exact List.mem_filter.mpr ⟨hmj, by simp [hmact]⟩
    intro hbeats
    rcases hbeats with hlt | heq
    · have := hmax mj hmjA
      rw [hpa1] at hlt
      exact absurd this (not_le.mpr hlt)
    · have hmjL2 : mj ∈ L2 := by
        rw [hL2]
        refine List.mem_filter.mpr ⟨hmjA, ?_⟩
        simp [heq.1, hpa1]
      have := hminidx mj hmjL2
      omega
  refine ⟨{ a1.2 with
      supports := a1.2.supports ++ absorbedSnips (fun n => n.supports) sim p l.enum a1.1 a1.2,
      counters := a1.2.counters ++ absorbedSnips (fun n => n.counters) sim p l.enum a1.1 a1.2 },
    ?_, by simpa using ha1act, ?_⟩
  · simp only [mergePass]
    have := List.mem_map_of_mem (fun x : Nat × CruxNode =>
      if x.2.status = .active then
        if mergedBy sim p l.enum x.1 x.2 then
          { x.2 with status := .merged }
        else
          { x.2 with
            supports := x.2.supports ++ absorbedSnips (fun n => n.supports) sim p l.enum x.1 x.2,
            counters := x.2.counters ++ absorbedSnips (fun n => n.counters) sim p l.enum x.1 x.2 }
      else x.2) ha1enum
    simpa [ha1act, hng] using this
  · simp only
    calc c ≤ p n0.node_id := hc0
      _ ≤ p a0.2.node_id := hmax (i0, n0) hn0A
      _ = p a1.2.node_id := hpa1.symm

lemma retirePass_length (p : Nat → ℚ) (l : List CruxNode) :
    (retirePass p l).length = l.length := by
  simp [retirePass]

lemma retirePass_active_src {p : Nat → ℚ} {l : List CruxNode} {n' : CruxNode}
    (h : n' ∈ retirePass p l) (ha : n'.status = .active) :
    ∃ n ∈ l, n.status = .active ∧ n.node_id = n'.node_id := by
  simp only [retirePass] at h
  obtain ⟨n, hn, hfn⟩ := List.mem_map.mp h
  by_cases hact : n.status = .active
  · rw [if_pos hact] at hfn
    by_cases hret : RETIRE_K ≤ (if p n.node_id < PROB_FLOOR then n.low_streak + 1 else 0)
    · rw [if_pos hret] at hfn
      rw [← hfn] at ha
      simp at ha
    · rw [if_neg hret] at hfn
      refine ⟨n, hn, hact, ?_⟩
      rw [← hfn]
  · rw [if_neg hact] at hfn
    rw [← hfn] at ha
    exact (hact ha).elim

lemma retirePass_survivor {p : Nat → ℚ} {l : List CruxNode} {n : CruxNode}
    (hn : n ∈ l) (ha : n.status = .active) (hp : ¬ p n.node_id < PROB_FLOOR) :
    ∃ n' ∈ retirePass p l, n'.status = .active ∧ n'.node_id = n.node_id := by
  refine ⟨{ n with low_streak := 0 }, ?_, by simpa using ha, rfl⟩
  simp only [retirePass]
  have := List.mem_map_of_mem (fun n : CruxNode =>
    if n.status = .active then
      let s := if p n.node_id < PROB_FLOOR then n.low_streak + 1 else 0
      if RETIRE_K ≤ s then { n with low_streak := s, status := .retired }
      else { n with low_streak := s }
    else n) hn
  simpa [ha, hp, RETIRE_K] using this

/-- C1: after every Belief Updater pass the probabilities assigned to the
active hypothesis nodes sum exactly to 1 (hence within any floating
tolerance), for every reachable belief state — reachable states satisfy
the spec's own side conditions: at most `MAX_HYPOTHESES` nodes, at least
one active node, and no active node at probability exactly 0.  Retired
and merged nodes are excluded from the sum but retained for audit: the
pass never deletes a node. -/
theorem updateBeliefs_probability_invariant
    (lik : Evidence → Nat → ℚ) (sim : CruxNode → CruxNode → ℚ)
    (b : BeliefState) (obs : Evidence)
    (hcap : b.nodes.length ≤ MAX_HYPOTHESES)
    (hpos : ∀ n ∈ b.nodes, n.status = .active → 0 < b.probs n.node_id)
    (hex : ∃ n ∈ b.nodes, n.status = .active) :
    activeSum (update_beliefs lik sim b obs) = 1 ∧
      (update_beliefs lik sim b obs).nodes.length = b.nodes.length := by
  have hbu_pos : ∀ n ∈ (logOddsUpdate lik obs b).nodes, n.status = .active →
      0 < (logOddsUpdate lik obs b).probs n.node_id := by
    intro n hn ha
    have hn' : n ∈ b.nodes := hn
    show 0 < (if isActiveId b.nodes n.node_id then
      b.probs n.node_id * clipFactor (lik obs n.node_id) else b.probs n.node_id)
    rw [if_pos (isActiveId_of_mem hn' ha)]
    exact mul_pos (hpos n hn' ha) (clipFactor_pos _)
  have hbu_ex : ∃ n ∈ (logOddsUpdate lik obs b).nodes, n.status = .active := hex
  have hb1_pos : ∀ n ∈ (renormalizeActive (logOddsUpdate lik obs b)).nodes,
      n.status = .active →
      0 < (renormalizeActive (logOddsUpdate lik obs b)).probs n.node_id :=
    renormalizeActive_pos hbu_pos hbu_ex
  have hb1_sum : activeSum (renormalizeActive (logOddsUpdate lik obs b)) = 1 :=
    renormalizeActive_activeSum hbu_pos hbu_ex
  set b1 := renormalizeActive (logOddsUpdate lik obs b) with hb1def
  have hb1_nodes : b1.nodes = b.nodes := rfl
  have hpig : ∃ n ∈ b1.nodes, n.status = .active ∧ (1 : ℚ) / 6 ≤ b1.probs n.node_id := by
    have hne : (activeNodes b1.nodes).map (fun n => b1.probs n.node_id) ≠ [] := by
      obtain ⟨n0, hn0, ha0⟩ := hbu_ex
      have : n0 ∈ activeNodes b1.nodes := mem_activeNodes.mpr ⟨hn0, ha0⟩
      intro hnil
      rw [List.map_eq_nil_iff] at hnil
      simp [hnil] at this
    have hlen : ((activeNodes b1.nodes).map (fun n => b1.probs n.node_id)).length ≤ 6 := by
      rw [List.length_map]
      calc (activeNodes b1.nodes).length ≤ b1.nodes.length := List.length_filter_le _ _
        _ ≤ 6 := hcap
    obtain ⟨x, hx, hxle⟩ := exists_sixth_le hne hlen hb1_sum
    obtain ⟨m, hm, rfl⟩ := List.mem_map.mp hx
    exact ⟨m, (mem_activeNodes.mp hm).1, (mem_activeNodes.mp hm).2, hxle⟩
  have hsurv2 : ∃ n' ∈ mergePass sim b1.probs b1.nodes, n'.status = .active ∧
      (1 : ℚ) / 6 ≤ b1.probs n'.node_id := by
    apply mergePass_survivor
    obtain ⟨n, hn, ha, hle⟩ := hpig
    exact ⟨n, hn, ha, hle⟩
  obtain ⟨n2, hn2, ha2, hle2⟩ := hsurv2
  have hsurv3 : ∃ n' ∈ retirePass b1.probs (mergePass sim b1.probs b1.nodes),
      n'.status = .active ∧ n'.node_id = n2.node_id := by
    apply retirePass_survivor hn2 ha2
    intro hlt
    rw [PROB_FLOOR] at hlt
    linarith
  have hpos3 : ∀ m ∈ retirePass b1.probs (mergePass sim b1.probs b1.nodes),
      m.status = .active → 0 < b1.probs m.node_id := by
    intro m hm ham
    obtain ⟨mm, hmm, hamm, hid⟩ := retirePass_active_src hm ham
    obtain ⟨m1, hm1, ham1, hid1⟩ := mergePass_active_src hmm hamm
    rw [← hid, ← hid1]
    exact hb1_pos m1 hm1 ham1
  have hex3 : ∃ m ∈ retirePass b1.probs (mergePass sim b1.probs b1.nodes),
      m.status = .active := by
    obtain ⟨n3, hn3, ha3, _⟩ := hsurv3
    exact ⟨n3, hn3, ha3⟩
  have hfin : activeSum (renormalizeActive
      { b1 with nodes := retirePass b1.probs (mergePass sim b1.probs b1.nodes) }) = 1 :=
    renormalizeActive_activeSum hpos3 hex3
  constructor
  · exact hfin
  · show (retirePass b1.probs (mergePass sim b1.probs b1.nodes)).length = b.nodes.length
    rw [retirePass_length, mergePass_length, hb1_nodes]

/-- Witness for C1: the invariant theorem applied to the concrete state. -/
theorem updateBeliefs_probability_invariant_witness :
    activeSum (update_beliefs wLik wSim wBelief wEvidence) = 1 ∧
      (update_beliefs wLik wSim wBelief wEvidence).nodes.length = wBelief.nodes.length :=
  updateBeliefs_probability_invariant wLik wSim wBelief wEvidence
    (by decide)
    (by
      intro n hn ha
      rcases List.mem_cons.mp hn with rfl | hn2
      · norm_num [wBelief, wNode1]
      · rcases List.mem_cons.mp hn2 with rfl | hn3
        · norm_num [wBelief, wNode2]
        · simp at hn3)
    ⟨wNode1, by simp [wBelief], rfl⟩

/-- C4: the exit predicate is checked in fixed priority order —
threshold, then diminishing returns, then budget — and the threshold
rule fires exactly when the top active probability is at least
`TAU_HIGH` (0.80) and the top-minus-second gap is at least `DELTA_GAP`
(0.25), yielding exit reason `threshold`. -/
theorem should_stop_priority_order (seed : Nat) (st : AgentState) (cands : List Action) :
    (should_stop seed st cands = some .threshold ↔
      TAU_HIGH ≤ topProb st.belief_state ∧
        DELTA_GAP ≤ topProb st.belief_state - secondProb st.belief_state) ∧
    (¬ (TAU_HIGH ≤ topProb st.belief_state ∧
          DELTA_GAP ≤ topProb st.belief_state - secondProb st.belief_state) →
      bestActionEVI seed st.belief_state cands < EPSILON_EVI →
      should_stop seed st cands = some .epsilon) ∧
    (¬ (TAU_HIGH ≤ topProb st.belief_state ∧
          DELTA_GAP ≤ topProb st.belief_state - secondProb st.belief_state) →
      ¬ bestActionEVI seed st.belief_state cands < EPSILON_EVI →
      MAX_USER_QUERIES ≤ st.queries_used ∨ MAX_STEPS ≤ st.budget_used →
      should_stop seed st cands = some .budget) := by
  refine ⟨⟨fun h => ?_, fun h => ?_⟩, fun h1 h2 => ?_, fun h1 h2 h3 => ?_⟩
  · by_cases h1 : TAU_HIGH ≤ topProb st.belief_state ∧
        DELTA_GAP ≤ topProb st.belief_state - secondProb st.belief_state
    · exact h1
    · exfalso
      unfold should_stop at h
      rw [if_neg h1] at h
      by_cases h2 : bestActionEVI seed st.belief_state cands < EPSILON_EVI
      · rw [if_pos h2] at h
        simp at h
      · rw [if_neg h2] at h
        by_cases h3 : MAX_USER_QUERIES ≤ st.queries_used ∨ MAX_STEPS ≤ st.budget_used
        · rw [if_pos h3] at h
          simp at h
        · rw [if_neg h3] at h
          simp at h
  · unfold should_stop
    rw [if_pos h]
  · unfold should_stop
    rw [if_neg h1, if_pos h2]
  · unfold should_stop
    rw [if_neg h1, if_neg h2, if_pos h3]

/-- Witness for C4: on the concrete high-confidence state the predicate
returns the threshold exit reason. -/
theorem should_stop_priority_order_witness :
    should_stop 0 wstThr [] = some .threshold :=
  (should_stop_priority_order 0 wstThr []).1.mpr
    (by
      constructor
      · show TAU_HIGH ≤ topProb wBeliefThr
        norm_num [TAU_HIGH, topProb, sortDescQ, insertDescQ, activeNodes, wBeliefThr]
      · show DELTA_GAP ≤ topProb wBeliefThr - secondProb wBeliefThr
        norm_num [DELTA_GAP, topProb, secondProb, sortDescQ, insertDescQ, activeNodes, wBeliefThr])

/-- C5: when the guardrail safety trigger fires on the input text or on
a user reply, the turn stops immediately with the guardrail exit reason,
regardless of belief confidence and of the other exit conditions (the
state is fully arbitrary), and the terminal result reports exactly one
exit reason — it equals guardrail and nothing else. -/
theorem guardrail_short_circuit (or : Oracle) (reply : Option String) (st : AgentState)
    (hg : guardrailTriggered st.journal_text reply = true) :
    stepTurn or reply st =
      .finished st (finalize st.belief_state st.evidence_log .guardrail) ∧
    ∀ stf r, stepTurn or reply st = .finished stf r →
      ∀ e : ExitReason, r.exit_reason = e ↔ e = .guardrail := by
  have hstep : stepTurn or reply st =
      .finished st (finalize st.belief_state st.evidence_log .guardrail) := by
    unfold stepTurn
    rw [if_pos hg]
  refine ⟨hstep, ?_⟩
  intro stf r h2 e
  rw [hstep] at h2
  injection h2 with h2a h2b
  rw [← h2b]
  have hfe : (finalize st.belief_state st.evidence_log .guardrail).exit_reason = .guardrail := rfl
  rw [hfe]
  exact eq_comm

/-- Witness for C5: a reply containing a configured trigger phrase stops
the concrete turn with the guardrail reason even though the belief state
is above the confidence threshold. -/
theorem guardrail_short_circuit_witness :
    stepTurn wOracle wReplyTrigger wstGuard =
      .finished wstGuard (finalize wstGuard.belief_state wstGuard.evidence_log .guardrail) ∧
    ∀ stf r, stepTurn wOracle wReplyTrigger wstGuard = .finished stf r →
      ∀ e : ExitReason, r.exit_reason = e ↔ e = .guardrail :=
  guardrail_short_circuit wOracle wReplyTrigger wstGuard (by rfl)

lemma applyReply_budget (or : Oracle) (reply : Option String) (st : AgentState) :
    (applyReply or reply st).budget_used = st.budget_used := by
  unfold applyReply
  split <;> rfl

lemma applyReply_queries (or : Oracle) (reply : Option String) (st : AgentState) :
    (applyReply or reply st).queries_used = st.queries_used := by
  unfold applyReply
  split <;> rfl

lemma should_stop_none_budgets {seed : Nat} {st : AgentState} {cands : List Action}
    (h : should_stop seed st cands = none) :
    st.queries_used < MAX_USER_QUERIES ∧ st.budget_used < MAX_STEPS := by
  unfold should_stop at h
  split at h
  · exact absurd h (by simp)
  · split at h
    · exact absurd h (by simp)
    · split at h
      · exact absurd h (by simp)
      · rename_i hbud
        push_neg at hbud
        exact ⟨hbud.1, hbud.2⟩

lemma stepTurn_next_counters {or : Oracle} {reply : Option String}
    {st st' : AgentState} {a : Action}
    (h : stepTurn or reply st = .next st' a) :
    st'.budget_used = st.budget_used + 1 ∧ st.budget_used < MAX_STEPS ∧
      (st.queries_used ≤ MAX_USER_QUERIES → st'.queries_used ≤ MAX_USER_QUERIES) := by
  unfold stepTurn at h
  split at h
  · exact StepResult.noConfusion h
  · split at h
    · exact StepResult.noConfusion h
    · rename_i hss
      have hlim := should_stop_none_budgets hss
      rw [applyReply_queries, applyReply_budget] at hlim
      split at h
      · exact StepResult.noConfusion h
      · injection h with h1 h2
        rw [← h1]
        refine ⟨by simp [applyReply_budget], hlim.2, fun _ => ?_⟩
        show (applyReply or reply st).queries_used + 1 ≤ MAX_USER_QUERIES
        rw [applyReply_queries]
        omega
      · injection h with h1 h2
        rw [← h1]
        refine ⟨by simp [applyReply_budget], hlim.2, fun hq => ?_⟩
        show (applyReply or reply st).queries_used ≤ MAX_USER_QUERIES
        rw [applyReply_queries]
        exact hq

lemma stepTurn_finished_counters {or : Oracle} {reply : Option String}
    {st stf : AgentState} {r : AgentResult}
    (h : stepTurn or reply st = .finished stf r) :
    stf.budget_used = st.budget_used ∧ stf.queries_used = st.queries_used := by
  unfold stepTurn at h
  split at h
  · injection h with h1 h2
    rw [← h1]
    exact ⟨rfl, rfl⟩
  · split at h
    · injection h with h1 h2
      rw [← h1]
      exact ⟨applyReply_budget or reply st, applyReply_queries or reply st⟩
    · split at h
      · injection h with h1 h2
        rw [← h1]
        exact ⟨applyReply_budget or reply st, applyReply_queries or reply st⟩
      · exact StepResult.noConfusion h
      · exact StepResult.noConfusion h

lemma runLoopFuel_terminates (or : Oracle) (stream : Nat → Option String) :
    ∀ fuel st, st.budget_used ≤ MAX_STEPS → st.queries_used ≤ MAX_USER_QUERIES →
      MAX_STEPS < st.budget_used + fuel →
      ∃ stf r, runLoopFuel or stream fuel st = some (stf, r) ∧
        stf.budget_used ≤ MAX_STEPS ∧ stf.queries_used ≤ MAX_USER_QUERIES := by
  intro fuel
  induction fuel with
  | zero => intro st h1 h2 h3; omega
  | succ f ih =>
    intro st h1 h2 h3
    cases hstep : stepTurn or (stream st.budget_used) st with
    | finished stf r =>
      obtain ⟨hb, hq⟩ := stepTurn_finished_counters hstep
      refine ⟨stf, r, ?_, by omega, by omega⟩
      simp only [runLoopFuel]
      rw [hstep]
    | next st' a =>
      obtain ⟨hb, hlt, hq⟩ := stepTurn_next_counters hstep
      have hrec := ih st' (by omega) (hq h2) (by omega)
      obtain ⟨stf, r, hrun, hbf, hqf⟩ := hrec
      refine ⟨stf, r, ?_, hbf, hqf⟩
      simp only [runLoopFuel]
      rw [hstep]
      exact hrun

/-- C6: for every oracle behaviour, every stream of user replies and
every initial state with fresh budgets, the loop reaches a terminal
result within the configured budgets — the fuel `MAX_STEPS + 1` is never
exhausted, the final step count is at most `MAX_STEPS` (8) and at most
`MAX_USER_QUERIES` (3) user questions are asked — so no infinite loop is
possible. -/
theorem loop_terminates_within_budgets (or : Oracle) (stream : Nat → Option String)
    (st : AgentState) (h0 : st.budget_used = 0) (hq0 : st.queries_used = 0) :
    ∃ stf r, runLoopFuel or stream (MAX_STEPS + 1) st = some (stf, r) ∧
      stf.budget_used ≤ MAX_STEPS ∧ stf.queries_used ≤ MAX_USER_QUERIES := by
  apply runLoopFuel_terminates or stream (MAX_STEPS + 1) st <;> omega

/-- Witness for C6: the loop on a concrete fresh state with a silent
reply stream terminates within the default budgets. -/
theorem loop_terminates_within_budgets_witness :
    ∃ stf r, runLoopFuel wOracle (fun _ => none) (MAX_STEPS + 1) wstLoop = some (stf, r) ∧
      stf.budget_used ≤ MAX_STEPS ∧ stf.queries_used ≤ MAX_USER_QUERIES :=
  loop_terminates_within_budgets wOracle (fun _ => none) wstLoop rfl rfl

/-- C3: action scoring and selection are deterministic — the Scorer is a
pure function of the belief state and the pseudo-random seed, the seed
used for outcome sampling is derived from the turn's state id and
revision and recorded in the emitted state, and replaying the scoring
from the emitted state's recorded seed over the same belief state
recomputes the same scores and selects the same action. -/
theorem scoring_deterministic_replayable
    (or : Oracle) (reply : Option String) (st st' : AgentState) (a : Action)
    (h : stepTurn or reply st = .next st' a) :
    st'.seed = deriveSeed st.state_id st.revision ∧
    selectAction st'.seed (applyReply or reply st).belief_state
        (enumerate_actions or (applyReply or reply st)) = some a ∧
    ∀ s2 : AgentState, s2.seed = st'.seed →
      s2.belief_state = (applyReply or reply st).belief_state →
      ∀ acts : List Action,
        score_actions s2.seed s2.belief_state acts =
          score_actions st'.seed (applyReply or reply st).belief_state acts ∧
        selectAction s2.seed s2.belief_state acts =
          selectAction st'.seed (applyReply or reply st).belief_state acts := by
  unfold stepTurn at h
  split at h
  · exact StepResult.noConfusion h
  · split at h
    · exact StepResult.noConfusion h
    · split at h
      · exact StepResult.noConfusion h
      · rename_i heq
        injection h with h1 h2
        rw [← h1]
        refine ⟨rfl, ?_, ?_⟩
        · rw [← h2]
          exact heq
        · intro s2 hs hb acts
          rw [hs, hb]
          exact ⟨rfl, rfl⟩
      · rename_i heq
        injection h with h1 h2
        rw [← h1]
        refine ⟨rfl, ?_, ?_⟩
        · rw [← h2]
          exact heq
        · intro s2 hs hb acts
          rw [hs, hb]
          exact ⟨rfl, rfl⟩

lemma whs1 : actionScore (deriveSeed 12 0) wBeliefRun (Action.counterfactualTest 3) = 17/288 := by
  norm_num [actionScore, expectedInfoGain, entropyImpurity, sampledLik, lcg, deriveSeed,
    clipFactor, renormalizeActive, logOddsUpdate, isActiveId, activeNodes, probeObs,
    Action.actionId, wBeliefRun, costOf, LAMBDA_COST, min_def, max_def]

lemma whs2 : actionScore (deriveSeed 12 0) wBeliefRun wAskRun = 0 := by
  norm_num [actionScore, expectedInfoGain, entropyImpurity, sampledLik, lcg, deriveSeed,
    clipFactor, renormalizeActive, logOddsUpdate, isActiveId, activeNodes, probeObs,
    Action.actionId, wBeliefRun, wAskRun, costOf, LAMBDA_COST, min_def, max_def]

lemma whenum : enumerate_actions wOracle wstRun = [Action.counterfactualTest 3, wAskRun] := by
  norm_num [enumerate_actions, hasNearDup, entropyImpurity, activeNodes, wstRun, wBeliefRun,
    wOracle, wSim, MERGE_RADIUS, MAX_HYPOTHESES, MAX_USER_QUERIES, wAskRun]

lemma whsel : selectAction (deriveSeed 12 0) wstRun.belief_state
    [Action.counterfactualTest 3, wAskRun] = some wActRun := by
  have hb : wstRun.belief_state = wBeliefRun := rfl
  rw [hb]
  unfold selectAction
  simp only [List.argmax, List.foldl, List.argAux]
  rw [if_neg]
  · rfl
  · rw [whs1, whs2]
    norm_num

lemma whtop : topProb wBeliefRun = 1/2 := by
  norm_num [topProb, sortDescQ, insertDescQ, activeNodes, wBeliefRun]

lemma whss : should_stop (deriveSeed 12 0) wstRun
    [Action.counterfactualTest 3, wAskRun] = none := by
  have hb : wstRun.belief_state = wBeliefRun := rfl
  unfold should_stop
  rw [if_neg, if_neg, if_neg]
  · show ¬ (MAX_USER_QUERIES ≤ wstRun.queries_used ∨ MAX_STEPS ≤ wstRun.budget_used)
    norm_num [wstRun, MAX_USER_QUERIES, MAX_STEPS]
  · rw [hb]
    have hbest : bestActionEVI (deriveSeed 12 0) wBeliefRun
        [Action.counterfactualTest 3, wAskRun] = 17/288 := by
      unfold bestActionEVI
      have hsel2 := whsel
      rw [hb] at hsel2
      unfold selectAction at hsel2
      rw [hsel2]
      exact whs1
    rw [hbest]
    norm_num [EPSILON_EVI]
  · rw [hb, whtop]
    norm_num [TAU_HIGH, DELTA_GAP, secondProb, sortDescQ, insertDescQ, activeNodes, wBeliefRun]

lemma whstep : stepTurn wOracle none wstRun = .next wstNext wActRun := by
  have happ : applyReply wOracle none wstRun = wstRun := rfl
  have hsid : wstRun.state_id = 12 := rfl
  have hrev : wstRun.revision = 0 := rfl
  unfold stepTurn
  rw [if_neg (by decide)]
  simp only [happ, hsid, hrev, whenum, whss, whsel]
  rfl

/-- Witness for C3: on the concrete turn the emitted state records the
derived seed, and rerunning the Scorer from the emitted seed over the
same belief state selects the same internal action. -/
theorem scoring_deterministic_replayable_witness :
    wstNext.seed = deriveSeed wstRun.state_id wstRun.revision ∧
    selectAction wstNext.seed (applyReply wOracle none wstRun).belief_state
        (enumerate_actions wOracle (applyReply wOracle none wstRun)) = some wActRun ∧
    ∀ s2 : AgentState, s2.seed = wstNext.seed →
      s2.belief_state = (applyReply wOracle none wstRun).belief_state →
      ∀ acts : List Action,
        score_actions s2.seed s2.belief_state acts =
          score_actions wstNext.seed (applyReply wOracle none wstRun).belief_state acts ∧
        selectAction s2.seed s2.belief_state acts =
          selectAction wstNext.seed (applyReply wOracle none wstRun).belief_state acts :=
  scoring_deterministic_replayable wOracle none wstRun wstNext wActRun whstep

lemma applyReply_revision (or : Oracle) (reply : Option String) (st : AgentState) :
    (applyReply or reply st).revision = st.revision := by
  unfold applyReply
  split <;> rfl

lemma applyReply_sid (or : Oracle) (reply : Option String) (st : AgentState) :
    (applyReply or reply st).state_id = st.state_id := by
  unfold applyReply
  split <;> rfl

lemma stepTurn_next_ids {or : Oracle} {reply : Option String}
    {st st' : AgentState} {a : Action}
    (h : stepTurn or reply st = .next st' a) :
    st'.revision = st.revision + 1 ∧ st'.state_id = st.state_id := by
  unfold stepTurn at h
  split at h
  · exact StepResult.noConfusion h
  · split at h
    · exact StepResult.noConfusion h
    · split at h
      · exact StepResult.noConfusion h
      · injection h with h1 h2
        rw [← h1]
        exact ⟨by simp [applyReply_revision], by simp [applyReply_sid]⟩
      · injection h with h1 h2
        rw [← h1]
        exact ⟨by simp [applyReply_revision], by simp [applyReply_sid]⟩

lemma stepTurn_finished_ids {or : Oracle} {reply : Option String}
    {st stf : AgentState} {r : AgentResult}
    (h : stepTurn or reply st = .finished stf r) :
    stf.revision = st.revision ∧ stf.state_id = st.state_id := by
  unfold stepTurn at h
  split at h
  · injection h with h1 h2
    rw [← h1]
    exact ⟨rfl, rfl⟩
  · split at h
    · injection h with h1 h2
      rw [← h1]
      exact ⟨applyReply_revision or reply st, applyReply_sid or reply st⟩
    · split at h
      · injection h with h1 h2
        rw [← h1]
        exact ⟨applyReply_revision or reply st, applyReply_sid or reply st⟩
      · exact StepResult.noConfusion h
      · exact StepResult.noConfusion h

lemma handleContinue_eq_fresh {or : Oracle} {now : Nat} {ctx : ServerCtx} {req : ContinueReq}
    (hmiss : ∀ k, req.key = some k →
      lookupCache ctx.cache k req.state.state_id req.state.revision now = none) :
    handleContinue or now ctx req = handleFresh or now ctx req := by
  unfold handleContinue
  cases hk : req.key with
  | none => rfl
  | some k => simp only [hmiss k hk]

/-- C2: an accepted (freshly executed, non-replayed) `continue` turn is
possible only at the current revision, emits a state whose revision is
exactly one higher, and advances the server's expected revision by one —
so over any accepted sequence of turns the revision strictly increases
by exactly 1 per turn; and a request carrying a stale revision is always
rejected with 409 Conflict instead of being processed. -/
theorem revision_monotonic_and_stale_rejected
    (or : Oracle) (now : Nat) (ctx : ServerCtx) (req : ContinueReq)
    (hmiss : ∀ k, req.key = some k →
      lookupCache ctx.cache k req.state.state_id req.state.revision now = none) :
    (∀ ctx' r, handleContinue or now ctx req = (ctx', true, Except.ok r) →
      req.state.revision = ctx.curRev ∧ r.state_rev = req.state.revision + 1 ∧
        ctx'.curRev = ctx.curRev + 1) ∧
    (req.state.revision ≠ ctx.curRev →
      handleContinue or now ctx req = (ctx, true, Except.error ServerErr.conflict409)) := by
  rw [handleContinue_eq_fresh hmiss]
  constructor
  · intro ctx' r h
    unfold handleFresh at h
    split at h
    · simp at h
    · split at h
      · simp at h
      · split at h
        · simp at h
        · rename_i hint hrev hans
          rw [not_ne_iff] at hrev
          split at h
          · rename_i st' a heq
            obtain ⟨hrev', _⟩ := stepTurn_next_ids heq
            simp only [Prod.mk.injEq, Except.ok.injEq] at h
            obtain ⟨hc, _, hr⟩ := h
            refine ⟨hrev, ?_, ?_⟩
            · rw [← hr]
              show st'.revision = req.state.revision + 1
              rw [hrev']
            · rw [← hc]
          · rename_i stf rr heq
            obtain ⟨hrev', _⟩ := stepTurn_finished_ids heq
            simp only [Prod.mk.injEq, Except.ok.injEq] at h
            obtain ⟨hc, _, hr⟩ := h
            refine ⟨hrev, ?_, ?_⟩
            · rw [← hr]
              show stf.revision + 1 = req.state.revision + 1
              rw [hrev']
            · rw [← hc]
  · intro hne
    unfold handleFresh
    by_cases hio : integrityOk req.state = false
    · rw [if_pos hio]
    · rw [if_neg hio, if_pos hne]

/-- Witness for C2: the concrete stale request is rejected with 409. -/
theorem revision_monotonic_and_stale_rejected_witness :
    handleContinue wOracle 0 wctxStale wreqStale =
      (wctxStale, true, Except.error ServerErr.conflict409) :=
  (revision_monotonic_and_stale_rejected wOracle 0 wctxStale wreqStale
    (fun k hk => Option.noConfusion hk)).2 (by decide)

lemma handle_ok_cache {or : Oracle} {t1 : Nat} {ctx ctx' : ServerCtx}
    {req : ContinueReq} {k : Nat} {r : TurnResponse}
    (hk : req.key = some k)
    (h : handleContinue or t1 ctx req = (ctx', true, Except.ok r)) :
    ctx'.cache = ⟨k, req.state.state_id, req.state.revision, t1, r⟩ :: ctx.cache := by
  unfold handleContinue at h
  simp only [hk] at h
  cases hlook : lookupCache ctx.cache k req.state.state_id req.state.revision t1 with
  | some r0 =>
    simp only [hlook] at h
    simp at h
  | none =>
    simp only [hlook] at h
    unfold handleFresh at h
    split at h
    · simp at h
    · split at h
      · simp at h
      · split at h
        · simp at h
        · split at h
          · simp only [Prod.mk.injEq, Except.ok.injEq] at h
            obtain ⟨hc, _, hr⟩ := h
            rw [← hc]
            show pushCache ctx.cache req.key req.state.state_id req.state.revision t1 _ = _
            rw [hk]
            unfold pushCache
            rw [hr]
          · simp only [Prod.mk.injEq, Except.ok.injEq] at h
            obtain ⟨hc, _, hr⟩ := h
            rw [← hc]
            show pushCache ctx.cache req.key req.state.state_id req.state.revision t1 _ = _
            rw [hk]
            unfold pushCache
            rw [hr]

/-- C7: replaying a `continue` request with the same idempotency key and
the same (state id, revision) pair within the two-minute validity window
returns the stored prior response — the executed flag is false, the
codec context is untouched, and the body is value-identical to the first
response, hence byte-identical under the deterministic encoder. -/
theorem idempotent_replay
    (or : Oracle) (t1 t2 : Nat) (ctx ctx' : ServerCtx) (req : ContinueReq)
    (k : Nat) (r : TurnResponse)
    (hk : req.key = some k)
    (h1 : handleContinue or t1 ctx req = (ctx', true, Except.ok r))
    (hwin : t2 - t1 ≤ IDEM_WINDOW) :
    handleContinue or t2 ctx' req = (ctx', false, Except.ok r) ∧
    ∀ r2, handleContinue or t2 ctx' req = (ctx', false, Except.ok r2) →
      encodeResponse r2 = encodeResponse r := by
  have hcache := handle_ok_cache hk h1
  have hlook : lookupCache ctx'.cache k req.state.state_id req.state.revision t2 = some r := by
    rw [hcache]
    unfold lookupCache
    simp [List.find?, hwin]
  have hmain : handleContinue or t2 ctx' req = (ctx', false, Except.ok r) := by
    unfold handleContinue
    simp only [hk, hlook]
  refine ⟨hmain, ?_⟩
  intro r2 h2
  rw [hmain] at h2
  simp only [Prod.mk.injEq, Except.ok.injEq] at h2
  rw [h2.2.2]

lemma wh7fresh : handleContinue wOracle 50 wctx7 wreq7 = (wctx7after, true, Except.ok wresp7) := by
  show handleFresh wOracle 50 wctx7 wreq7 = (wctx7after, true, Except.ok wresp7)
  unfold handleFresh
  rw [if_neg (by decide), if_neg (by decide), if_neg (by decide)]
  have hv : wreq7.value = none := rfl
  have hs : wreq7.state = wstRun := rfl
  rw [hv, hs, whstep]
  rfl

/-- Witness for C7: replaying the concrete keyed request 50 seconds
later returns the cached body without executing the pipeline. -/
theorem idempotent_replay_witness :
    handleContinue wOracle 100 wctx7after wreq7 = (wctx7after, false, Except.ok wresp7) ∧
    ∀ r2, handleContinue wOracle 100 wctx7after wreq7 = (wctx7after, false, Except.ok r2) →
      encodeResponse r2 = encodeResponse wresp7 :=
  idempotent_replay wOracle 50 100 wctx7 wctx7after wreq7 77 wresp7 rfl wh7fresh (by decide)

/-- C8: when the last emitted action was a question, a `continue` reply
whose `answer_to` does not match that action id is always rejected with
the distinct 410 Gone failure — never silently accepted (no response
body is produced) and never reported as the generic validation or
conflict error. -/
theorem answer_mismatch_gone
    (or : Oracle) (now : Nat) (ctx : ServerCtx) (req : ContinueReq) (aid : Nat)
    (hmiss : ∀ k, req.key = some k →
      lookupCache ctx.cache k req.state.state_id req.state.revision now = none)
    (hint : integrityOk req.state = true)
    (hrev : req.state.revision = ctx.curRev)
    (hlast : ctx.lastAskId = some aid)
    (hmm : req.answer_to ≠ some aid) :
    handleContinue or now ctx req = (ctx, true, Except.error ServerErr.gone410) ∧
      ServerErr.gone410 ≠ ServerErr.conflict409 ∧
      ServerErr.gone410 ≠ ServerErr.badRequest400 := by
  refine ⟨?_, by decide, by decide⟩
  rw [handleContinue_eq_fresh hmiss]
  unfold handleFresh
  rw [if_neg (by rw [hint]; simp), if_neg (by rw [hrev]; simp), if_pos]
  rw [hlast]
  simpa using hmm

/-- Witness for C8: the concrete mis-targeted reply gets 410 Gone. -/
theorem answer_mismatch_gone_witness :
    handleContinue wOracle 0 wctx8 wreq8 = (wctx8, true, Except.error ServerErr.gone410) ∧
      ServerErr.gone410 ≠ ServerErr.conflict409 ∧
      ServerErr.gone410 ≠ ServerErr.badRequest400 :=
  answer_mismatch_gone wOracle 0 wctx8 wreq8 11
    (fun k hk => Option.noConfusion hk) rfl rfl rfl (by decide)

/-- C9: if the reasoning service fails during seeding, or returns fewer
than one usable candidate, the Belief Seeder fabricates the single
generic "unclear" hypothesis node instead of surfacing an error — the
seeder is a total function into belief states, and every seeding outcome
leaves at least one active node so the loop can proceed. -/
theorem seeder_fallback_on_failure :
    (∀ e : SvcErr, seed_beliefs (Except.error e) = fallbackBelief) ∧
    (∀ cands : List Candidate, cands.filter usable = [] →
      seed_beliefs (Except.ok cands) = fallbackBelief) ∧
    fallbackBelief.nodes.map (fun n => n.text) = ["unclear"] ∧
    fallbackBelief.nodes.length = 1 ∧
    ∀ res : Except SvcErr (List Candidate),
      ∃ n ∈ (seed_beliefs res).nodes, n.status = .active := by
  refine ⟨fun e => rfl, ?_, rfl, rfl, ?_⟩
  · intro cands h
    unfold seed_beliefs
    simp [h]
  · intro res
    cases res with
    | error e => exact ⟨unclearNode, by simp [seed_beliefs, fallbackBelief, unclearNode], rfl⟩
    | ok cands =>
      unfold seed_beliefs
      cases htk : (cands.filter usable).take 4 with
      | nil =>
        simp only [htk]
        exact ⟨unclearNode, by simp [fallbackBelief, unclearNode], rfl⟩
      | cons c cs =>
        simp only [htk]
        refine ⟨_, List.mem_map_of_mem _
          (show ((0 : Nat), c) ∈ (c :: cs).enum by
            rw [List.enum_cons]
            exact List.mem_cons_self _ _), rfl⟩

/-- Witness for C9: a timeout and an unusable (empty-text) candidate
list both seed the single "unclear" node, which is active. -/
theorem seeder_fallback_on_failure_witness :
    seed_beliefs (Except.error SvcErr.timeout) = fallbackBelief ∧
    seed_beliefs (Except.ok [⟨"", none⟩]) = fallbackBelief ∧
    ∃ n ∈ (seed_beliefs (Except.error SvcErr.timeout)).nodes, n.status = .active :=
  ⟨(seeder_fallback_on_failure).1 SvcErr.timeout,
   (seeder_fallback_on_failure).2.1 [⟨"", none⟩] (by decide),
   (seeder_fallback_on_failure).2.2.2.2 (Except.error SvcErr.timeout)⟩

/-- C10: in the v2 excavation engine's belief update each hypothesis
confidence is computed independently as `clip(sigmoid(w . f_i + bias))`
— the update is a per-hypothesis map, so it distributes over list
concatenation and after every update each confidence lies in the unit
interval for any sigmoid — but the active hypotheses' confidences are
not renormalized: on three active hypotheses with zero features the
updated confidences sum to 3/2, not 1. -/
theorem v2_update_clipped_not_renormalized :
    (∀ (sigmoid : ℚ → ℚ) (w : List ℚ) (bias : ℚ)
        (feats : CruxHypothesis → List ℚ) (sup : CruxHypothesis → Bool)
        (hyps : List CruxHypothesis) (h : CruxHypothesis),
      h ∈ update_beliefs_v2 sigmoid w bias feats sup hyps →
        0 ≤ h.confidence ∧ h.confidence ≤ 1) ∧
    (∀ (sigmoid : ℚ → ℚ) (w : List ℚ) (bias : ℚ)
        (feats : CruxHypothesis → List ℚ) (sup : CruxHypothesis → Bool)
        (l1 l2 : List CruxHypothesis),
      update_beliefs_v2 sigmoid w bias feats sup (l1 ++ l2) =
        update_beliefs_v2 sigmoid w bias feats sup l1 ++
          update_beliefs_v2 sigmoid w bias feats sup l2) ∧
    activeConfSum (update_beliefs_v2 sigmoidModel [] 0
        (fun _ => []) (fun _ => false) wV2hyps) = 3 / 2 ∧
    (3 / 2 : ℚ) ≠ 1 := by
  refine ⟨?_, ?_, ?_, by norm_num⟩
  · intro sigmoid w bias feats sup hyps h hm
    obtain ⟨h0, _, rfl⟩ := List.mem_map.mp hm
    constructor
    · show (0 : ℚ) ≤ max 0 (min 1 (sigmoid (dotQ w (feats h0) + bias)))
      exact le_max_left _ _
    · show max 0 (min 1 (sigmoid (dotQ w (feats h0) + bias))) ≤ 1
      exact max_le (by norm_num) (min_le_left _ _)
  · intro sigmoid w bias feats sup l1 l2
    exact List.map_append _ l1 l2
  · norm_num [update_beliefs_v2, updateOneV2, activeConfSum, wV2hyps, clip01, dotQ,
      sigmoidModel, DISCARD_BAND, min_def, max_def]

/-- Witness for C10: the unit-interval bound applied to the first
concrete updated hypothesis. -/
theorem v2_update_clipped_not_renormalized_witness :
    0 ≤ (updateOneV2 sigmoidModel [] 0 (fun _ => []) (fun _ => false)
        ⟨1, "fear of failure", 2/5, 0, .active, 0⟩).confidence ∧
      (updateOneV2 sigmoidModel [] 0 (fun _ => []) (fun _ => false)
        ⟨1, "fear of failure", 2/5, 0, .active, 0⟩).confidence ≤ 1 :=
  (v2_update_clipped_not_renormalized).1 sigmoidModel [] 0 (fun _ => []) (fun _ => false)
    wV2hyps _ (List.mem_map_of_mem _ (by simp [wV2hyps]))

end FACD
